import Mathlib

/-!
Shallow embedding of the surge download engine (github.com/surge-downloader/surge)
for checking its natural-language specification against the code.

The embedding translates the Go source into Lean definitions:
  * `internal/engine/concurrent` (worker loop, downloadTask, StealWork, errors)
  * `internal/engine/state` (SaveState / LoadState over a relational-store model)
  * `cmd/http_handlers.go` (checkOrigin, corsMiddleware, authMiddleware, handleDownload)
  * `internal/utils` (SanitizeURL)

Machine integers (Go int64) are modelled as Lean `Int`; the sequential model
reads each atomic variable once per program point, mirroring the source's
explicit loads and stores.  Definitions whose Go source is not in the
repository snapshot (only its tests or callers are) are modelled from the
spec and carry a doc comment saying so.
-/

namespace Surge

/-- A byte-range task `[offset, offset+length)`, from `internal/engine/types`
(declared there; shape taken from its uses `types.Task{Offset: ..., Length: ...}`
throughout `internal/engine/concurrent` and `internal/engine/state`). -/
structure Task where
  offset : Int
  length : Int
deriving Repr, DecidableEq

/-! ### Error model: `internal/engine/concurrent` fatal errors (part_007) -/

/-- Go `error` values produced by the concurrent package: either a plain
`fmt.Errorf`-style error, the sentinel `ErrFatal`, or a `FatalError` wrapper
(from `FatalError{Err: e}` in the fatal-error file). -/
inductive GoError where
  | plain (msg : String)
  | errFatal
  | fatalWrap (e : GoError)
deriving Repr, DecidableEq

/-- `errors.Is(err, ErrFatal)`: walks the `Unwrap` chain looking for the
sentinel.  `FatalError.Unwrap` returns the wrapped error. -/
def GoError.isErrFatal : GoError → Bool
  | .plain _ => false
  | .errFatal => true
  | .fatalWrap e => e.isErrFatal

/-- `errors.As(err, &fatalErr)` for `*FatalError`: walks the `Unwrap` chain
looking for a `FatalError` value. -/
def GoError.asFatalError : GoError → Bool
  | .plain _ => false
  | .errFatal => false
  | .fatalWrap _ => true

/-- `IsFatal` from the concurrent package: nil is not fatal; otherwise
`errors.Is(err, ErrFatal) || errors.As(err, &fatalErr)`. -/
def IsFatal : Option GoError → Bool
  | none => false
  | some e => e.isErrFatal || e.asFatalError

/-- `NewFatalError` from the concurrent package: wraps an error in `FatalError`. -/
def NewFatalError (e : GoError) : GoError := .fatalWrap e

/-! ### `downloadTask` response-status handling (common_test.go lines 189-196) -/

/-- The error `downloadTask` returns from its response-status checks, before
reading the body: `429` yields `rate limited (429)`; any status other than
`206 Partial Content` and `200 OK` yields `unexpected status: <code>`;
`206`/`200` pass (no error). -/
def downloadTaskStatusError (status : Nat) : Option GoError :=
  if status == 429 then
    some (.plain "rate limited (429)")
  else if status != 206 && status != 200 then
    some (.plain ("unexpected status: " ++ toString status))
  else
    none

/-! ### The worker retry loop (`worker`, common_test.go lines 47-165)

The loop is modelled as a pure recursion over the remaining attempt budget.
The outcome of each call to `downloadTask` (whether it returned an error, the
victim-visible `CurrentOffset`/`StopAt` of the `ActiveTask` when it returned,
and which contexts were cancelled) is supplied by an environment
`outcomes : Nat → AttemptOutcome` indexed by the attempt counter. -/

/-- Observable result of one `downloadTask` call plus the context state the
worker inspects right after it (common_test.go lines 85-106). -/
structure AttemptOutcome where
  /-- `lastErr != nil`: `downloadTask` returned a non-nil error. -/
  failed : Bool
  /-- `atomic.LoadInt64(&activeTask.CurrentOffset)` after the call. -/
  currentAfter : Int
  /-- `atomic.LoadInt64(&activeTask.StopAt)` after the call. -/
  stopAtAfter : Int
  /-- `wasExternallyCancelled`: `taskCtx.Err() != nil` captured before `taskCancel()`. -/
  taskCancelled : Bool
  /-- `ctx.Err() != nil`: the parent download context is cancelled. -/
  parentCancelled : Bool
deriving Repr, DecidableEq

/-- How the per-task part of the worker loop ended. -/
inductive LoopExit where
  | parentCancelled
  | taskCancelRequeue
  | success
  | exhausted
deriving Repr, DecidableEq

/-- What one loop iteration did: the backoff slept before it (none for the
first attempt, `2^attempt * RetryBaseDelay` otherwise) and the task value the
attempt ran with. -/
structure AttemptRecord where
  sleepBefore : Option Int
  taskUsed : Task
deriving Repr, DecidableEq

/-- Result of running the retry loop for one popped task. -/
structure LoopResult where
  trace : List AttemptRecord
  exit : LoopExit
  /-- Task pushed by the health-cancel branch (remaining bytes), if any. -/
  pushedRemaining : Option Task
  /-- Task pushed by the after-loop `if lastErr != nil { queue.Push(task) }`. -/
  requeuedTask : Option Task
  /-- Whether the worker's entry was deleted from `d.activeTasks`. -/
  registryRemoved : Bool
deriving Repr, DecidableEq

/-- `ActiveTask.RemainingTask` (declared in `internal/engine/concurrent`, source
not in the snapshot).  Modelled from the spec: the health-cancel path "requeues
only the remaining bytes (`[current_offset, stop_at)`)", so it returns the task
`{offset: current_offset, length: stop_at - current_offset}` when that range is
non-empty and nil otherwise. -/
def remainingTask (currentOffset stopAt : Int) : Option Task :=
  if stopAt - currentOffset > 0 then
    some ⟨currentOffset, stopAt - currentOffset⟩
  else
    none

/-- Clamp of the requeued remainder to the original task end
(common_test.go lines 109-113). -/
def clampRemaining (orig rem : Task) : Task :=
  let originalEnd := orig.offset + orig.length
  if rem.offset + rem.length > originalEnd then
    ⟨rem.offset, originalEnd - rem.offset⟩
  else
    rem

/-- Resume-on-retry task update (common_test.go lines 145-150): if
`CurrentOffset` advanced past the task's offset, the next attempt runs on
`{offset = current, length = originalEnd - current}`. -/
def resumeUpdate (t : Task) (current : Int) : Task :=
  if current > t.offset then
    ⟨current, t.offset + t.length - current⟩
  else
    t

/-- The retry loop of `worker` (common_test.go lines 60-165), recursing on the
remaining attempt budget.  `attempt` is the loop counter, `lastFailed` tracks
whether `lastErr` is non-nil when the budget runs out (it is nil initially and
after the cancel branch clears it). -/
def workerLoopFrom (outcomes : Nat → AttemptOutcome) (baseDelay : Int) :
    Nat → Task → Nat → Bool → LoopResult
  | 0, task, _, lastFailed =>
    { trace := []
      exit := .exhausted
      pushedRemaining := none
      requeuedTask := if lastFailed then some task else none
      registryRemoved := true }
  | budget + 1, task, attempt, _ =>
    let o := outcomes attempt
    let sleep : Option Int :=
      if attempt > 0 then some (2 ^ attempt * baseDelay) else none
    let rec₀ : AttemptRecord := ⟨sleep, task⟩
    if o.parentCancelled then
      -- parent cancelled: return ctx.Err(), keep the registry entry
      { trace := [rec₀], exit := .parentCancelled, pushedRemaining := none
        requeuedTask := none, registryRemoved := false }
    else if o.taskCancelled && o.failed then
      -- health monitor cancelled this task: requeue remaining bytes only
      let pushed := (remainingTask o.currentAfter o.stopAtAfter).bind fun r =>
        let c := clampRemaining task r
        if c.length > 0 then some c else none
      { trace := [rec₀], exit := .taskCancelRequeue, pushedRemaining := pushed
        requeuedTask := none, registryRemoved := true }
    else if !o.failed then
      { trace := [rec₀], exit := .success, pushedRemaining := none
        requeuedTask := none, registryRemoved := true }
    else
      let task' := resumeUpdate task o.currentAfter
      let rest := workerLoopFrom outcomes baseDelay budget task' (attempt + 1) true
      { rest with trace := rec₀ :: rest.trace }

/-- One popped task's full retry loop: budget `maxRetries`, counter from 0,
`lastErr` initially nil. -/
def workerLoop (outcomes : Nat → AttemptOutcome) (baseDelay : Int)
    (maxRetries : Nat) (task : Task) : LoopResult :=
  workerLoopFrom outcomes baseDelay maxRetries task 0 false

/-! #### Helper lemmas about the retry loop -/

/-- The trace the loop produces when every attempt fails retryably
(no cancellation): one record per budget unit, threading the resume update. -/
def allFailTrace (outcomes : Nat → AttemptOutcome) (baseDelay : Int) :
    Nat → Task → Nat → List AttemptRecord
  | 0, _, _ => []
  | budget + 1, task, attempt =>
    ⟨if attempt > 0 then some (2 ^ attempt * baseDelay) else none, task⟩ ::
      allFailTrace outcomes baseDelay budget
        (resumeUpdate task (outcomes attempt).currentAfter) (attempt + 1)

/-- The task value left in the loop variable after `budget` failing attempts. -/
def allFailFinal (outcomes : Nat → AttemptOutcome) :
    Nat → Task → Nat → Task
  | 0, task, _ => task
  | budget + 1, task, attempt =>
    allFailFinal outcomes budget
      (resumeUpdate task (outcomes attempt).currentAfter) (attempt + 1)

theorem workerLoopFrom_allFail (outcomes : Nat → AttemptOutcome) (baseDelay : Int)
    (hfail : ∀ a, (outcomes a).failed = true)
    (hnc : ∀ a, (outcomes a).taskCancelled = false)
    (hnp : ∀ a, (outcomes a).parentCancelled = false) :
    ∀ (budget : Nat) (task : Task) (attempt : Nat) (lastF : Bool),
      workerLoopFrom outcomes baseDelay budget task attempt lastF =
        { trace := allFailTrace outcomes baseDelay budget task attempt
          exit := .exhausted
          pushedRemaining := none
          requeuedTask :=
            if budget = 0 && !lastF then none
            else some (allFailFinal outcomes budget task attempt)
          registryRemoved := true } := by
  intro budget
  induction budget with
  | zero =>
    intro task attempt lastF
    cases lastF <;> simp [workerLoopFrom, allFailTrace, allFailFinal]
  | succ b ih =>
    intro task attempt lastF
    simp [workerLoopFrom, hfail, hnc, hnp, allFailTrace, allFailFinal, ih]

theorem allFailTrace_length (outcomes : Nat → AttemptOutcome) (baseDelay : Int) :
    ∀ (budget : Nat) (task : Task) (attempt : Nat),
      (allFailTrace outcomes baseDelay budget task attempt).length = budget := by
  intro budget
  induction budget with
  | zero => intro task attempt; rfl
  | succ b ih => intro task attempt; simp [allFailTrace, ih]

theorem allFailTrace_sleep (outcomes : Nat → AttemptOutcome) (baseDelay : Int) :
    ∀ (budget : Nat) (task : Task) (attempt : Nat) (i : Nat) (rec : AttemptRecord),
      (allFailTrace outcomes baseDelay budget task attempt).get? i = some rec →
      rec.sleepBefore =
        if attempt + i > 0 then some (2 ^ (attempt + i) * baseDelay) else none := by
  intro budget
  induction budget with
  | zero =>
    intro task attempt i rec h
    simp [allFailTrace] at h
  | succ b ih =>
    intro task attempt i rec h
    cases i with
    | zero =>
      simp only [allFailTrace, List.get?_cons_zero, Option.some.injEq] at h
      simp [← h]
    | succ j =>
      simp only [allFailTrace, List.get?_cons_succ] at h
      have harith : attempt + (j + 1) = (attempt + 1) + j := by omega
      rw [harith]
      exact ih (resumeUpdate task (outcomes attempt).currentAfter) (attempt + 1) j rec h

theorem allFailTrace_head (outcomes : Nat → AttemptOutcome) (baseDelay : Int)
    (budget : Nat) (task : Task) (attempt : Nat) (rec : AttemptRecord)
    (h : (allFailTrace outcomes baseDelay budget task attempt).get? 0 = some rec) :
    rec.taskUsed = task := by
  cases budget with
  | zero => simp [allFailTrace] at h
  | succ b =>
    simp only [allFailTrace, List.get?_cons_zero, Option.some.injEq] at h
    simp [← h]

theorem allFailTrace_chain (outcomes : Nat → AttemptOutcome) (baseDelay : Int) :
    ∀ (budget : Nat) (task : Task) (attempt : Nat) (i : Nat) (rec₁ rec₂ : AttemptRecord),
      (allFailTrace outcomes baseDelay budget task attempt).get? i = some rec₁ →
      (allFailTrace outcomes baseDelay budget task attempt).get? (i + 1) = some rec₂ →
      rec₂.taskUsed = resumeUpdate rec₁.taskUsed (outcomes (attempt + i)).currentAfter := by
  intro budget
  induction budget with
  | zero =>
    intro task attempt i rec₁ rec₂ h₁ h₂
    simp [allFailTrace] at h₁
  | succ b ih =>
    intro task attempt i rec₁ rec₂ h₁ h₂
    cases i with
    | zero =>
      simp only [allFailTrace, List.get?_cons_zero, Option.some.injEq] at h₁
      simp only [allFailTrace, List.get?_cons_succ] at h₂
      have hh := allFailTrace_head outcomes baseDelay b
        (resumeUpdate task (outcomes attempt).currentAfter) (attempt + 1) rec₂ h₂
      rw [hh, ← h₁]
      simp
    | succ j =>
      simp only [allFailTrace, List.get?_cons_succ] at h₁ h₂
      have harith : attempt + (j + 1) = (attempt + 1) + j := by omega
      rw [harith]
      exact ih (resumeUpdate task (outcomes attempt).currentAfter) (attempt + 1) j rec₁ rec₂ h₁ h₂

theorem workerLoop_trace_le (outcomes : Nat → AttemptOutcome) (baseDelay : Int) :
    ∀ (budget : Nat) (task : Task) (attempt : Nat) (lastF : Bool),
      (workerLoopFrom outcomes baseDelay budget task attempt lastF).trace.length ≤ budget := by
  intro budget
  induction budget with
  | zero => intro task attempt lastF; simp [workerLoopFrom]
  | succ b ih =>
    intro task attempt lastF
    simp only [workerLoopFrom]
    split
    · simp
    · split
      · simp
      · split
        · simp
        · simpa [Nat.succ_le_succ] using
            Nat.succ_le_succ (ih (resumeUpdate task (outcomes attempt).currentAfter) (attempt + 1) true)

/-! ### Claim theorems: worker loop -/

/-- C3: the claim says a range request answered with HTTP 403/404/410/401 is
wrapped as a fatal error and neither retried nor requeued.  The code disagrees:
`downloadTask` turns 404 into the plain error `unexpected status: 404` (no
`FatalError` wrap, `IsFatal` is false), the worker's retry loop makes all
`MaxTaskRetries` attempts (here 2, the configuration of the repository's own
`TestConcurrentDownloader_HttpError_404`), and afterwards pushes the failed
task back onto the queue. -/
theorem worker_404_retried_and_requeued :
    downloadTaskStatusError 404 = some (.plain "unexpected status: 404") ∧
    IsFatal (downloadTaskStatusError 404) = false ∧
    (workerLoop
        (fun _ => ⟨(downloadTaskStatusError 404).isSome, 0, 1024, false, false⟩)
        1 2 ⟨0, 1024⟩).trace.length = 2 ∧
    (workerLoop
        (fun _ => ⟨(downloadTaskStatusError 404).isSome, 0, 1024, false, false⟩)
        1 2 ⟨0, 1024⟩).requeuedTask = some ⟨0, 1024⟩ ∧
    (workerLoop
        (fun _ => ⟨(downloadTaskStatusError 404).isSome, 0, 1024, false, false⟩)
        1 2 ⟨0, 1024⟩).exit = .exhausted := by
  refine ⟨rfl, rfl, rfl, rfl, rfl⟩

/-- C4: when every attempt fails with a retryable error (no cancellation), the
worker makes at most `max_task_retries` attempts (exactly that many when the
error persists), sleeps `retry_base_delay * 2^attempt` before each retry (and
not before the first attempt), starts from the popped task, and before each
retry replaces the task by `{offset = current_offset,
length = original_end - current_offset}` exactly when `current_offset` has
advanced past the task's offset. -/
theorem worker_retry_policy (outcomes : Nat → AttemptOutcome) (baseDelay : Int)
    (maxRetries : Nat) (task : Task)
    (hfail : ∀ a, (outcomes a).failed = true)
    (hnc : ∀ a, (outcomes a).taskCancelled = false)
    (hnp : ∀ a, (outcomes a).parentCancelled = false) :
    (∀ (o : Nat → AttemptOutcome) (t : Task),
        (workerLoop o baseDelay maxRetries t).trace.length ≤ maxRetries) ∧
    (workerLoop outcomes baseDelay maxRetries task).trace.length = maxRetries ∧
    (∀ (i : Nat) (rec : AttemptRecord),
        (workerLoop outcomes baseDelay maxRetries task).trace.get? i = some rec →
        rec.sleepBefore = if i = 0 then none else some (2 ^ i * baseDelay)) ∧
    (∀ rec : AttemptRecord,
        (workerLoop outcomes baseDelay maxRetries task).trace.get? 0 = some rec →
        rec.taskUsed = task) ∧
    (∀ (i : Nat) (rec₁ rec₂ : AttemptRecord),
        (workerLoop outcomes baseDelay maxRetries task).trace.get? i = some rec₁ →
        (workerLoop outcomes baseDelay maxRetries task).trace.get? (i + 1) = some rec₂ →
        rec₂.taskUsed =
          (if (outcomes i).currentAfter > rec₁.taskUsed.offset
           then ⟨(outcomes i).currentAfter,
                 rec₁.taskUsed.offset + rec₁.taskUsed.length - (outcomes i).currentAfter⟩
           else rec₁.taskUsed)) := by
  have hrun := workerLoopFrom_allFail outcomes baseDelay hfail hnc hnp maxRetries task 0 false
  constructor
  · intro o t
    exact workerLoop_trace_le o baseDelay maxRetries t 0 false
  refine ⟨?_, ?_, ?_, ?_⟩
  · simp [workerLoop, hrun, allFailTrace_length]
  · intro i rec h
    have h' : (allFailTrace outcomes baseDelay maxRetries task 0).get? i = some rec := by
      simpa [workerLoop, hrun] using h
    have := allFailTrace_sleep outcomes baseDelay maxRetries task 0 i rec h'
    rcases Nat.eq_zero_or_pos i with hi | hi
    · subst hi
      simpa using this
    · rw [this]
      have h1 : 0 + i > 0 := by omega
      have h2 : ¬(i = 0) := by omega
      simp [h1, h2]
  · intro rec h
    have h' : (allFailTrace outcomes baseDelay maxRetries task 0).get? 0 = some rec := by
      simpa [workerLoop, hrun] using h
    exact allFailTrace_head outcomes baseDelay maxRetries task 0 rec h'
  · intro i rec₁ rec₂ h₁ h₂
    have h₁' : (allFailTrace outcomes baseDelay maxRetries task 0).get? i = some rec₁ := by
      simpa [workerLoop, hrun] using h₁
    have h₂' : (allFailTrace outcomes baseDelay maxRetries task 0).get? (i + 1) = some rec₂ := by
      simpa [workerLoop, hrun] using h₂
    have := allFailTrace_chain outcomes baseDelay maxRetries task 0 i rec₁ rec₂ h₁' h₂'
    simpa [resumeUpdate] using this

/-- Witness for `worker_retry_policy`: two attempts with the current offset
advanced to 40 after the first failure; the second attempt runs on the updated
task `{40, 60}` and the backoff before it is `2^1 * baseDelay`. -/
theorem worker_retry_policy_witness :
    (workerLoop (fun _ => ⟨true, 40, 100, false, false⟩) 5 2 ⟨0, 100⟩).trace.length = 2 :=
  (worker_retry_policy (fun _ => ⟨true, 40, 100, false, false⟩) 5 2 ⟨0, 100⟩
    (fun _ => rfl) (fun _ => rfl) (fun _ => rfl)).2.1

/-- C5: when the first attempt's per-task context was cancelled (and the parent
context was not), the worker pushes exactly the remaining range
`[current_offset, stop_at)` clamped to the original task end — and only when
its length is positive — removes its registry entry, does not spend further
retry attempts on the task, and does not requeue the original task. -/
theorem worker_task_cancel_requeues_remaining (outcomes : Nat → AttemptOutcome)
    (baseDelay : Int) (maxRetries : Nat) (task : Task)
    (hm : 1 ≤ maxRetries)
    (hp : (outcomes 0).parentCancelled = false)
    (hc : (outcomes 0).taskCancelled = true)
    (hf : (outcomes 0).failed = true) :
    (workerLoop outcomes baseDelay maxRetries task).exit = .taskCancelRequeue ∧
    (workerLoop outcomes baseDelay maxRetries task).trace.length = 1 ∧
    (workerLoop outcomes baseDelay maxRetries task).requeuedTask = none ∧
    (workerLoop outcomes baseDelay maxRetries task).registryRemoved = true ∧
    (workerLoop outcomes baseDelay maxRetries task).pushedRemaining =
      (if (outcomes 0).currentAfter < (outcomes 0).stopAtAfter ∧
          (outcomes 0).currentAfter <
            min ((outcomes 0).stopAtAfter) (task.offset + task.length)
       then some ⟨(outcomes 0).currentAfter,
              min ((outcomes 0).stopAtAfter) (task.offset + task.length) -
                (outcomes 0).currentAfter⟩
       else none) := by
  obtain ⟨b, rfl⟩ : ∃ b, maxRetries = b + 1 :=
    ⟨maxRetries - 1, (Nat.succ_pred_eq_of_pos hm).symm⟩
  have hloop : workerLoop outcomes baseDelay (b + 1) task =
      { trace := [⟨none, task⟩]
        exit := .taskCancelRequeue
        pushedRemaining := (remainingTask (outcomes 0).currentAfter (outcomes 0).stopAtAfter).bind
          fun r =>
            let c := clampRemaining task r
            if c.length > 0 then some c else none
        requeuedTask := none
        registryRemoved := true } := by
    simp [workerLoop, workerLoopFrom, hp, hc, hf]
  refine ⟨by simp [hloop], by simp [hloop], by simp [hloop], by simp [hloop], ?_⟩
  rw [hloop]
  rcases lt_or_le (outcomes 0).currentAfter (outcomes 0).stopAtAfter with hlt | hge
  · have h1 : remainingTask (outcomes 0).currentAfter (outcomes 0).stopAtAfter =
        some ⟨(outcomes 0).currentAfter,
              (outcomes 0).stopAtAfter - (outcomes 0).currentAfter⟩ := by
      simp only [remainingTask]
      rw [if_pos (by omega)]
    rw [h1, Option.some_bind]
    simp only [clampRemaining]
    split_ifs <;>
      first
        | rfl
        | trivial
        | omega
        | (simp_all
           omega)
        | simp_all
  · have h1 : remainingTask (outcomes 0).currentAfter (outcomes 0).stopAtAfter = none := by
      simp only [remainingTask]
      rw [if_neg (by omega)]
    rw [h1, Option.none_bind, if_neg (by omega)]

/-- Witness for `worker_task_cancel_requeues_remaining`: a task `[0,100)` whose
attempt was health-cancelled at offset 40 with `stop_at` 70 requeues `[40,70)`. -/
theorem worker_task_cancel_requeues_remaining_witness :
    (workerLoop (fun _ => ⟨true, 40, 70, true, false⟩) 5 3 ⟨0, 100⟩).pushedRemaining =
      (if (40 : Int) < 70 ∧ (40 : Int) < min 70 (0 + 100)
       then some ⟨40, min (70 : Int) (0 + 100) - 40⟩
       else none) :=
  (worker_task_cancel_requeues_remaining (fun _ => ⟨true, 40, 70, true, false⟩) 5 3 ⟨0, 100⟩
    (by decide) rfl rfl rfl).2.2.2.2

/-! ### Work stealing: `StealWork` (common_test.go lines 341-410)

The registry `d.activeTasks` is modelled as an association list from worker id
to the task state; the sequential model reads `CurrentOffset` once (the Go
code re-reads it after selecting the victim and again after storing the new
`StopAt`; with no interleaved worker step all three loads agree).
`types.MinChunk` and `types.AlignSize` are declared in `internal/engine/types`
(source not in the snapshot), so they are parameters of every definition. -/

/-- In-flight state of a worker's task (`ActiveTask` of the concurrent
package), with the fields `StealWork` reads: the owning task's bounds and the
atomics `CurrentOffset` and `StopAt`. -/
structure ActiveTask where
  taskOffset : Int
  taskLength : Int
  currentOffset : Int
  stopAt : Int
deriving Repr, DecidableEq

/-- `ActiveTask.RemainingBytes` (declared in the concurrent package, source not
in the snapshot).  Modelled from the spec: the stealer looks for the task with
the largest `remaining = stop_at − current_offset`. -/
def remainingBytes (a : ActiveTask) : Int := a.stopAt - a.currentOffset

/-- `alignedSplitSize` (declared in the concurrent package, source not in the
snapshot).  Modelled from the spec: "`aligned_split(r)` returns the largest
multiple of `align_size` not exceeding `r/2`, and 0 if `r < 2·min_chunk`";
this behaviour is pinned value-by-value by the repository's
`TestAlignedSplitSize`. -/
def alignedSplitSize (minChunk alignSize r : Int) : Int :=
  if r < 2 * minChunk then 0 else r / 2 / alignSize * alignSize

/-- The victim-selection loop of `StealWork`: fold over the registry keeping
the entry with the most remaining work among those with
`remaining > MinChunk` (strict improvement, first seen wins ties). -/
def findVictim (minChunk : Int) :
    List (Nat × ActiveTask) → Option (Nat × ActiveTask) → Option (Nat × ActiveTask)
  | [], best => best
  | (id, a) :: rest, best =>
    let remaining := remainingBytes a
    let maxRemaining := match best with
      | none => 0
      | some p => remainingBytes p.2
    if remaining > minChunk ∧ remaining > maxRemaining then
      findVictim minChunk rest (some (id, a))
    else
      findVictim minChunk rest best

/-- Observable effects of one `StealWork` call: its boolean result, the victim
entry selected (with its pre-steal state), the value stored into the victim's
`StopAt` (none when no store happened), and the task pushed onto the queue. -/
structure StealOutcome where
  stole : Bool
  victim : Option (Nat × ActiveTask)
  newStopAt : Option Int
  pushed : Option Task
deriving Repr, DecidableEq

/-- `StealWork` (common_test.go lines 343-410), sequential model: select the
victim; compute the aligned split of its remaining bytes (returning false
without touching anything when the split is 0); store
`StopAt ← current + split`; reconcile `stolenStart` with the re-read
`CurrentOffset`; push `{offset: stolenStart, length: originalEnd − stolenStart}`
unless `stolenStart ≥ originalEnd`. -/
def stealWork (minChunk alignSize : Int) (reg : List (Nat × ActiveTask)) : StealOutcome :=
  match findVictim minChunk reg none with
  | none => ⟨false, none, none, none⟩
  | some (id, active) =>
    let remaining := remainingBytes active
    let splitSize := alignedSplitSize minChunk alignSize remaining
    if splitSize = 0 then ⟨false, some (id, active), none, none⟩
    else
      let current := active.currentOffset
      let newStopAt := current + splitSize
      let finalCurrent := active.currentOffset
      let stolenStart := if finalCurrent > newStopAt then finalCurrent else newStopAt
      let originalEnd := current + remaining
      if stolenStart ≥ originalEnd then ⟨false, some (id, active), some newStopAt, none⟩
      else ⟨true, some (id, active), some newStopAt,
            some ⟨stolenStart, originalEnd - stolenStart⟩⟩

/-! #### Helper lemmas about victim selection -/

/-- The `maxRemaining` value carried by the selection fold. -/
def bestRemaining : Option (Nat × ActiveTask) → Int
  | none => 0
  | some p => remainingBytes p.2

theorem findVictim_ge_init (minChunk : Int) :
    ∀ (l : List (Nat × ActiveTask)) (best : Option (Nat × ActiveTask)),
      bestRemaining best ≤ bestRemaining (findVictim minChunk l best) := by
  intro l
  induction l with
  | nil => intro best; simp [findVictim]
  | cons y rest ih =>
    intro best
    obtain ⟨id, a⟩ := y
    simp only [findVictim]
    split
    · rename_i hcond
      calc bestRemaining best ≤ remainingBytes a := le_of_lt hcond.2
        _ = bestRemaining (some (id, a)) := rfl
        _ ≤ _ := ih (some (id, a))
    · exact ih best

theorem findVictim_ge_mem (minChunk : Int) :
    ∀ (l : List (Nat × ActiveTask)) (best : Option (Nat × ActiveTask))
      (x : Nat × ActiveTask), x ∈ l → minChunk < remainingBytes x.2 →
      remainingBytes x.2 ≤ bestRemaining (findVictim minChunk l best) := by
  intro l
  induction l with
  | nil => intro best x hx; simp at hx
  | cons y rest ih =>
    intro best x hx hq
    obtain ⟨id, a⟩ := y
    rcases List.mem_cons.mp hx with hx | hx
    · subst hx
      simp only [findVictim]
      split
      · rename_i hcond
        calc remainingBytes (id, a).2 = bestRemaining (some (id, a)) := rfl
          _ ≤ _ := findVictim_ge_init minChunk rest (some (id, a))
      · rename_i hcond
        have hle : remainingBytes (id, a).2 ≤ bestRemaining best := by
          by_contra hgt
          exact hcond ⟨hq, lt_of_not_le hgt⟩
        calc remainingBytes (id, a).2 ≤ bestRemaining best := hle
          _ ≤ _ := findVictim_ge_init minChunk rest best
    · simp only [findVictim]
      split
      · exact ih (some (id, a)) x hx hq
      · exact ih best x hx hq

theorem findVictim_mem (minChunk : Int) :
    ∀ (l : List (Nat × ActiveTask)) (best : Option (Nat × ActiveTask))
      (v : Nat × ActiveTask), findVictim minChunk l best = some v →
      some v = best ∨ v ∈ l := by
  intro l
  induction l with
  | nil => intro best v h; exact Or.inl (by simpa [findVictim] using h.symm)
  | cons y rest ih =>
    intro best v h
    obtain ⟨id, a⟩ := y
    simp only [findVictim] at h
    revert h
    split
    · intro h
      rcases ih (some (id, a)) v h with heq | hmem
      · exact Or.inr (List.mem_cons.mpr (Or.inl (Option.some.inj heq.symm).symm))
      · exact Or.inr (List.mem_cons.mpr (Or.inr hmem))
    · intro h
      rcases ih best v h with heq | hmem
      · exact Or.inl heq
      · exact Or.inr (List.mem_cons.mpr (Or.inr hmem))

theorem findVictim_qualifies (minChunk : Int) :
    ∀ (l : List (Nat × ActiveTask)) (best : Option (Nat × ActiveTask))
      (v : Nat × ActiveTask), findVictim minChunk l best = some v →
      some v = best ∨ minChunk < remainingBytes v.2 := by
  intro l
  induction l with
  | nil => intro best v h; exact Or.inl (by simpa [findVictim] using h.symm)
  | cons y rest ih =>
    intro best v h
    obtain ⟨id, a⟩ := y
    simp only [findVictim] at h
    revert h
    split
    · intro h
      rename_i hcond
      rcases ih (some (id, a)) v h with heq | hlt
      · have : v = (id, a) := Option.some.inj heq.symm |>.symm
        subst this
        exact Or.inr hcond.1
      · exact Or.inr hlt
    · intro h
      exact ih best v h

theorem alignedSplitSize_pos (minChunk alignSize r : Int)
    (hA : 0 < alignSize) (hAM : alignSize ∣ minChunk) (hM : 0 < minChunk)
    (hr : 2 * minChunk ≤ r) :
    0 < alignedSplitSize minChunk alignSize r := by
  have hAle : alignSize ≤ minChunk := Int.le_of_dvd hM hAM
  have h2 : minChunk ≤ r / 2 := by omega
  have h3 : alignSize ≤ r / 2 := le_trans hAle h2
  have h4 : 1 ≤ r / 2 / alignSize := by
    rw [Int.le_ediv_iff_mul_le hA]
    simpa using h3
  have h5 : 1 * alignSize ≤ r / 2 / alignSize * alignSize :=
    mul_le_mul_of_nonneg_right h4 (le_of_lt hA)
  simp only [alignedSplitSize]
  rw [if_neg (by omega)]
  omega

theorem alignedSplitSize_lt (minChunk alignSize r : Int)
    (hA : 0 < alignSize) (hM : 0 < minChunk) (hr : 2 * minChunk ≤ r) :
    alignedSplitSize minChunk alignSize r < r := by
  have h1 : r / 2 / alignSize * alignSize ≤ r / 2 :=
    Int.ediv_mul_le (r / 2) (ne_of_gt hA)
  simp only [alignedSplitSize]
  rw [if_neg (by omega)]
  omega

/-- C1 (amended): whenever some registered active task has remaining bytes at
least `2·min_chunk` (so that `aligned_split` is non-zero), `StealWork` selects
as victim a registered task whose remaining bytes dominate those of every task
with remaining `> min_chunk`, stores
`stop_at ← current_offset + aligned_split(remaining)` — never above the
victim's previous `stop_at` — and pushes exactly
`{offset: new_stop_at, length: original_stop_at − new_stop_at}`, whose length
is positive, so the stolen range ends at the victim's original `stop_at` and
begins where the victim's retained range `[current_offset, new_stop_at)` ends. -/
theorem stealWork_splits_largest_victim
    (minChunk alignSize : Int) (reg : List (Nat × ActiveTask))
    (hA : 0 < alignSize) (hAM : alignSize ∣ minChunk) (hM : 0 < minChunk)
    (hbig : ∃ p ∈ reg, 2 * minChunk ≤ remainingBytes p.2) :
    (stealWork minChunk alignSize reg).stole = true ∧
    ∀ id victim, (stealWork minChunk alignSize reg).victim = some (id, victim) →
      (id, victim) ∈ reg ∧
      (∀ q ∈ reg, minChunk < remainingBytes q.2 →
          remainingBytes q.2 ≤ remainingBytes victim) ∧
      (stealWork minChunk alignSize reg).newStopAt =
        some (victim.currentOffset +
          alignedSplitSize minChunk alignSize (remainingBytes victim)) ∧
      victim.currentOffset +
          alignedSplitSize minChunk alignSize (remainingBytes victim) ≤ victim.stopAt ∧
      (stealWork minChunk alignSize reg).pushed =
        some ⟨victim.currentOffset +
                alignedSplitSize minChunk alignSize (remainingBytes victim),
              victim.stopAt -
                (victim.currentOffset +
                  alignedSplitSize minChunk alignSize (remainingBytes victim))⟩ ∧
      0 < victim.stopAt -
            (victim.currentOffset +
              alignedSplitSize minChunk alignSize (remainingBytes victim)) := by
  obtain ⟨p, hp, hpr⟩ := hbig
  have hpq : minChunk < remainingBytes p.2 := by omega
  cases hr : findVictim minChunk reg none with
  | none =>
    exfalso
    have := findVictim_ge_mem minChunk reg none p hp hpq
    rw [hr] at this
    simp only [bestRemaining] at this
    omega
  | some iv =>
    obtain ⟨id0, v0⟩ := iv
    have hmem : (id0, v0) ∈ reg := by
      rcases findVictim_mem minChunk reg none (id0, v0) hr with h | h
      · exact absurd h (by simp)
      · exact h
    have hmax : ∀ q ∈ reg, minChunk < remainingBytes q.2 →
        remainingBytes q.2 ≤ remainingBytes v0 := by
      intro q hqmem hqq
      have := findVictim_ge_mem minChunk reg none q hqmem hqq
      rw [hr] at this
      simpa [bestRemaining] using this
    have hrem : 2 * minChunk ≤ remainingBytes v0 :=
      le_trans hpr (hmax p hp hpq)
    have hsplitpos : 0 < alignedSplitSize minChunk alignSize (remainingBytes v0) :=
      alignedSplitSize_pos minChunk alignSize (remainingBytes v0) hA hAM hM hrem
    have hsplitlt : alignedSplitSize minChunk alignSize (remainingBytes v0) < remainingBytes v0 :=
      alignedSplitSize_lt minChunk alignSize (remainingBytes v0) hA hM hrem
    have houtcome : stealWork minChunk alignSize reg =
        ⟨true, some (id0, v0),
         some (v0.currentOffset + alignedSplitSize minChunk alignSize (remainingBytes v0)),
         some ⟨v0.currentOffset + alignedSplitSize minChunk alignSize (remainingBytes v0),
               v0.currentOffset + remainingBytes v0 -
                 (v0.currentOffset +
                   alignedSplitSize minChunk alignSize (remainingBytes v0))⟩⟩ := by
      simp only [stealWork, hr]
      split_ifs <;> first | rfl | omega
    have hrw : remainingBytes v0 = v0.stopAt - v0.currentOffset := rfl
    refine ⟨by rw [houtcome], ?_⟩
    intro id victim hv
    rw [houtcome] at hv
    simp only [Option.some.injEq, Prod.mk.injEq] at hv
    obtain ⟨hid, hvv⟩ := hv
    subst hid
    subst hvv
    refine ⟨hmem, hmax, by rw [houtcome], by omega, ?_, by omega⟩
    rw [houtcome]
    simp only [Option.some.injEq, Task.mk.injEq]
    exact ⟨trivial, by omega⟩

/-- Witness for `stealWork_splits_largest_victim`: one registered task
`[0, 4 MiB)` at `current_offset = 0` with the typical `min_chunk = 1 MiB` and
`align_size = 64 KiB`: the steal succeeds. -/
theorem stealWork_splits_largest_victim_witness :
    (stealWork 1048576 65536 [(0, ⟨0, 4194304, 0, 4194304⟩)]).stole = true :=
  (stealWork_splits_largest_victim 1048576 65536 [(0, ⟨0, 4194304, 0, 4194304⟩)]
    (by decide) ⟨16, by decide⟩ (by decide)
    ⟨(0, ⟨0, 4194304, 0, 4194304⟩), by simp, by decide⟩).1

/-- Counterexample to C1 as stated: the claim fires as soon as some task has
remaining strictly greater than `min_chunk`, and then asserts `stop_at` is
stored and a task pushed.  But for a sole task with remaining
`min_chunk + align_size` (more than `min_chunk`, less than `2·min_chunk`)
`alignedSplitSize` is 0 and `StealWork` returns false without storing a new
`stop_at` and without pushing anything. -/
theorem stealWork_counterexample :
    remainingBytes (⟨0, 2097152, 0, 1114112⟩ : ActiveTask) > 1048576 ∧
    stealWork 1048576 65536 [(0, ⟨0, 2097152, 0, 1114112⟩)] =
      ⟨false, some (0, ⟨0, 2097152, 0, 1114112⟩), none, none⟩ := by
  constructor
  · decide
  · rfl

/-! ### Progress accounting (common_test.go lines 290-327)

After a successful handoff the worker advances `offset` by `readSoFar`,
stores it into `CurrentOffset`, and adds to `ProgressState.downloaded` the
contribution clamped to `StopAt`. -/

/-- The amount added to `ProgressState.downloaded` for one handoff
(common_test.go lines 317-327): `effectiveEnd = min(new offset, StopAt)`,
`contributed = effectiveEnd - oldOffset`, added only when positive. -/
def progressDelta (oldOffset newOffset stopAt : Int) : Int :=
  let effectiveEnd := if newOffset > stopAt then stopAt else newOffset
  let contributed := effectiveEnd - oldOffset
  if contributed > 0 then contributed else 0

/-- Folding a sequence of handoff updates `(oldOffset, newOffset, stopAt)` into
the `downloaded` counter; `Downloaded.Add` is the only operation the engine
performs on the counter while a download is live. -/
def applyProgress (downloaded : Int) : List (Int × Int × Int) → Int
  | [] => downloaded
  | u :: rest => applyProgress (downloaded + progressDelta u.1 u.2.1 u.2.2) rest

/-- C2: the amount a worker adds to `downloaded` after a handoff equals
`min(new current_offset, stop_at) − previous offset` when that is positive and
0 otherwise (so lowering `stop_at` by the stealer can never make an already
counted byte count again), and consequently `downloaded` is monotone
non-decreasing under any sequence of such updates. -/
theorem progress_clamped_and_monotone :
    (∀ oldOffset newOffset stopAt : Int,
        progressDelta oldOffset newOffset stopAt =
          if min newOffset stopAt - oldOffset > 0
          then min newOffset stopAt - oldOffset
          else 0) ∧
    (∀ oldOffset newOffset stopAt : Int, 0 ≤ progressDelta oldOffset newOffset stopAt) ∧
    (∀ (downloaded : Int) (updates : List (Int × Int × Int)),
        downloaded ≤ applyProgress downloaded updates) := by
  have hdelta : ∀ oldOffset newOffset stopAt : Int,
      0 ≤ progressDelta oldOffset newOffset stopAt := by
    intro a b c
    simp only [progressDelta]
    split_ifs <;> omega
  refine ⟨?_, hdelta, ?_⟩
  · intro a b c
    simp only [progressDelta]
    rcases le_or_lt b c with h | h
    · rw [if_neg (show ¬b > c by omega), min_eq_left h]
    · rw [if_pos (show b > c by omega), min_eq_right (le_of_lt h)]
  · intro d us
    induction us generalizing d with
    | nil => simp [applyProgress]
    | cons u rest ih =>
      calc d ≤ d + progressDelta u.1 u.2.1 u.2.2 := by
            have := hdelta u.1 u.2.1 u.2.2
            omega
        _ ≤ _ := ih (d + progressDelta u.1 u.2.1 u.2.2)

/-! ### Persistence: `SaveState` / `LoadState` (internal/engine/state/state.go)

The SQLite store is modelled relationally: `downloads` as a list of rows
(primary key `id`), `tasks` as a list of rows with an auto-increment key.
SHA-256 (`URLHash`) and `uuid.New` are Go standard-library calls, so the hash
function and the fresh id are parameters.  `strings.Join`/`strings.Split` are
`String.intercalate`/`String.splitOn`. -/

/-- `types.DownloadState` (declared in `internal/engine/types`; field set taken
from its uses in state.go: ID, URL, DestPath, Filename, TotalSize, Downloaded,
URLHash, CreatedAt, PausedAt, Elapsed, Mirrors, ChunkBitmap, ActualChunkSize,
Tasks). -/
structure DownloadState where
  id : String
  url : String
  destPath : String
  filename : String
  totalSize : Int
  downloaded : Int
  urlHash : String
  createdAt : Int
  pausedAt : Int
  elapsed : Int
  mirrors : List String
  chunkBitmap : List Nat
  actualChunkSize : Int
  tasks : List Task
deriving Repr, DecidableEq

/-- A row of the `downloads` table (the columns SaveState writes). -/
structure DownloadRow where
  id : String
  url : String
  destPath : String
  filename : String
  status : String
  totalSize : Int
  downloaded : Int
  urlHash : String
  createdAt : Int
  pausedAt : Int
  timeTaken : Int
  mirrors : String
  chunkBitmap : List Nat
  actualChunkSize : Int
deriving Repr, DecidableEq

/-- A row of the `tasks` table. -/
structure TaskRow where
  rowId : Nat
  downloadId : String
  offset : Int
  length : Int
deriving Repr, DecidableEq

/-- The store: both tables plus the auto-increment counter of `tasks.id`. -/
structure DB where
  downloads : List DownloadRow
  tasks : List TaskRow
  nextTaskId : Nat
deriving Repr, DecidableEq

/-- `INSERT ... ON CONFLICT(id) DO UPDATE SET ...` of SaveState: on conflict
every written column except `created_at` is replaced by the excluded value
(`created_at` is absent from the update list). -/
def upsertDownload (row : DownloadRow) (rows : List DownloadRow) : List DownloadRow :=
  if rows.any (fun r => r.id == row.id) then
    rows.map (fun r => if r.id == row.id then { row with createdAt := r.createdAt } else r)
  else
    rows ++ [row]

/-- The `existingTasks` Go map keyed by offset, valued `(row id, length)`;
later rows overwrite earlier ones with the same offset. -/
def mapInsert (m : List (Int × Nat × Int)) (k : Int) (v : Nat × Int) :
    List (Int × Nat × Int) :=
  m.filter (fun e => e.1 != k) ++ [(k, v)]

/-- Build the offset map from the rows returned by
`SELECT id, offset, length FROM tasks WHERE download_id = ?`. -/
def buildExisting (rows : List TaskRow) : List (Int × Nat × Int) :=
  rows.foldl (fun m t => mapInsert m t.offset (t.rowId, t.length)) []

def mapLookup (m : List (Int × Nat × Int)) (k : Int) : Option (Nat × Int) :=
  (m.find? (fun e => e.1 == k)).map (fun e => e.2)

def mapErase (m : List (Int × Nat × Int)) (k : Int) : List (Int × Nat × Int) :=
  m.filter (fun e => e.1 != k)

/-- The diff loop of SaveState (state.go lines 96-111): walk the state's
tasks; an exact `(offset, length)` match is kept, a changed length is a
delete-plus-insert, a fresh offset is an insert; the map entries never matched
remain for deletion.  Returns `(toInsert, toDeleteIDs, leftover map)`. -/
def diffTasks : List Task → List (Int × Nat × Int) →
    List Task × List Nat × List (Int × Nat × Int)
  | [], m => ([], [], m)
  | t :: rest, m =>
    match mapLookup m t.offset with
    | some (rid, len) =>
      if len = t.length then
        diffTasks rest (mapErase m t.offset)
      else
        let r := diffTasks rest (mapErase m t.offset)
        (t :: r.1, rid :: r.2.1, r.2.2)
    | none =>
      let r := diffTasks rest m
      (t :: r.1, r.2.1, r.2.2)

/-- The insertion loop of SaveState: one
`INSERT INTO tasks (download_id, offset, length)` per task, consuming
auto-increment ids in order. -/
def insertTasks (did : String) : List Task → Nat → List TaskRow × Nat
  | [], nid => ([], nid)
  | t :: rest, nid =>
    let r := insertTasks did rest (nid + 1)
    (⟨nid, did, t.offset, t.length⟩ :: r.1, r.2)

/-- `SaveState` (state.go lines 25-152): fill in a missing id, set
`url_hash`/`paused_at`/`created_at`, upsert the downloads row (status
`paused`, `time_taken` in milliseconds), then diff the `tasks` rows against
the state's residual tasks.  Returns the mutated state together with the new
store contents. -/
def SaveState (urlHashFn : String → String) (freshId : String) (now : Int)
    (url destPath : String) (state : DownloadState) (db : DB) :
    DownloadState × DB :=
  let st1 := if state.id = "" then { state with id := freshId } else state
  let st2 := { st1 with
    urlHash := urlHashFn url
    pausedAt := now
    createdAt := if st1.createdAt = 0 then now else st1.createdAt }
  let row : DownloadRow := {
    id := st2.id, url := st2.url, destPath := st2.destPath
    filename := st2.filename, status := "paused"
    totalSize := st2.totalSize, downloaded := st2.downloaded
    urlHash := st2.urlHash, createdAt := st2.createdAt, pausedAt := st2.pausedAt
    timeTaken := st2.elapsed / 1000000
    mirrors := String.intercalate "," st2.mirrors
    chunkBitmap := st2.chunkBitmap, actualChunkSize := st2.actualChunkSize }
  let downloads1 := upsertDownload row db.downloads
  let existingM := buildExisting (db.tasks.filter (fun t => t.downloadId == st2.id))
  let d := diffTasks st2.tasks existingM
  let toDeleteAll := d.2.1 ++ (d.2.2.map (fun e => e.2.1))
  let tasks1 := db.tasks.filter (fun t => !(toDeleteAll.contains t.rowId))
  let ins := insertTasks st2.id d.1 db.nextTaskId
  (st2, { downloads := downloads1, tasks := tasks1 ++ ins.1, nextTaskId := ins.2 })

/-- `ORDER BY paused_at DESC LIMIT 1` over the filtered rows (first maximal
`paused_at` wins; SQLite leaves the tie order unspecified). -/
def pickLatest (rows : List DownloadRow) : Option DownloadRow :=
  rows.foldl
    (fun acc r =>
      match acc with
      | none => some r
      | some b => if r.pausedAt > b.pausedAt then some r else some b)
    none

/-- `LoadState` (state.go lines 155-227): select the most recently paused
non-completed row for `(url, dest_path)`, convert `time_taken` back from
milliseconds to nanoseconds, split the mirrors string (empty means no
mirrors), and read back the residual tasks of that download id. -/
def LoadState (url destPath : String) (db : DB) : Option DownloadState :=
  let cands := db.downloads.filter
    (fun r => r.url == url && r.destPath == destPath && r.status != "completed")
  match pickLatest cands with
  | none => none
  | some row => some {
      id := row.id, url := row.url, destPath := row.destPath
      filename := row.filename
      totalSize := row.totalSize, downloaded := row.downloaded
      urlHash := row.urlHash, createdAt := row.createdAt, pausedAt := row.pausedAt
      elapsed := row.timeTaken * 1000000
      mirrors := if row.mirrors != "" then row.mirrors.splitOn "," else []
      chunkBitmap := row.chunkBitmap
      actualChunkSize := row.actualChunkSize
      tasks := (db.tasks.filter (fun t => t.downloadId == row.id)).map
        (fun t => ⟨t.offset, t.length⟩) }

/-! #### Helper lemmas about the persistence model -/

theorem diffTasks_nil_map : ∀ l : List Task, diffTasks l [] = (l, [], []) := by
  intro l
  induction l with
  | nil => rfl
  | cons t rest ih => simp [diffTasks, mapLookup, ih]

theorem insertTasks_map_back (did : String) :
    ∀ (l : List Task) (n : Nat),
      ((insertTasks did l n).1).map (fun t => (⟨t.offset, t.length⟩ : Task)) = l := by
  intro l
  induction l with
  | nil => intro n; rfl
  | cons t rest ih => intro n; simp [insertTasks, ih (n + 1)]

theorem insertTasks_downloadId (did : String) :
    ∀ (l : List Task) (n : Nat) (t : TaskRow),
      t ∈ (insertTasks did l n).1 → t.downloadId = did := by
  intro l
  induction l with
  | nil => intro n t h; simp [insertTasks] at h
  | cons u rest ih =>
    intro n t h
    simp only [insertTasks, List.mem_cons] at h
    rcases h with h | h
    · rw [h]
    · exact ih (n + 1) t h

/-- C6 (amended): `SaveState` followed by `LoadState` on a store with no other
row for this download recovers the saved state — id, url, dest_path, filename,
total_size, downloaded, url_hash, created_at, mirrors, chunk_bitmap,
actual_chunk_size and the residual task list — with `paused_at` set to the
save time and elapsed time recovered exactly when it is a whole number of
milliseconds (the store keeps `time_taken` in ms), provided the state carries
a non-empty id, a non-zero `created_at`, the queried url/dest_path, and a
mirrors list that round-trips through the comma-joined column. -/
theorem save_load_roundtrip (urlHashFn : String → String) (freshId : String)
    (now : Int) (url destPath : String) (s : DownloadState) (db : DB)
    (hid : s.id ≠ "")
    (hcreated : s.createdAt ≠ 0)
    (hurl : s.url = url) (hdest : s.destPath = destPath)
    (helapsed : (1000000 : Int) ∣ s.elapsed)
    (hmirrors : (if String.intercalate "," s.mirrors != "" then
        (String.intercalate "," s.mirrors).splitOn "," else []) = s.mirrors)
    (hrows : ∀ r ∈ db.downloads,
        ¬(r.url = url ∧ r.destPath = destPath ∧ r.status ≠ "completed"))
    (hids : ∀ r ∈ db.downloads, r.id ≠ s.id)
    (htasks : ∀ t ∈ db.tasks, t.downloadId ≠ s.id) :
    LoadState url destPath (SaveState urlHashFn freshId now url destPath s db).2 =
      some { s with urlHash := urlHashFn url, pausedAt := now } := by
  simp only [SaveState, if_neg hid, if_neg hcreated]
  have hfiltertasks : db.tasks.filter (fun t => t.downloadId == s.id) = [] := by
    rw [List.filter_eq_nil]
    intro t ht
    simpa using htasks t ht
  have hany : db.downloads.any (fun r => r.id == s.id) = false := by
    rw [List.any_eq_false]
    intro r hr
    simpa using hids r hr
  simp only [hfiltertasks, buildExisting, List.foldl_nil, diffTasks_nil_map]
  simp only [upsertDownload, hany, Bool.false_eq_true, if_false]
  simp only [LoadState]
  have hstatus : ("paused" != "completed") = true := by decide
  set pr : DownloadRow → Bool :=
    fun r => r.url == url && r.destPath == destPath && r.status != "completed" with hpr
  set r0 : DownloadRow := { id := s.id, url := s.url, destPath := s.destPath, filename := s.filename, status := "paused", totalSize := s.totalSize, downloaded := s.downloaded, urlHash := urlHashFn url, createdAt := s.createdAt, pausedAt := now, timeTaken := s.elapsed / 1000000, mirrors := String.intercalate "," s.mirrors, chunkBitmap := s.chunkBitmap, actualChunkSize := s.actualChunkSize } with hr0
  have hfilterdl : List.filter pr db.downloads = [] := by
    rw [List.filter_eq_nil_iff]
    intro r hr
    have := hrows r hr
    rw [hpr]
    simp only [Bool.and_eq_true, beq_iff_eq, bne_iff_ne, ne_eq, not_and]
    tauto
  have hsingle : List.filter pr [r0] = [r0] := by
    rw [hpr, hr0]
    simp [hurl, hdest]
  have hpick : pickLatest [r0] = some r0 := rfl
  have hkill : List.filter
      (fun t : TaskRow =>
        !((([] : List Nat) ++ List.map (fun e : Int × Nat × Int => e.2.1) []).contains t.rowId))
      db.tasks = db.tasks :=
    List.filter_eq_self.mpr (fun a _ => rfl)
  have hfiltertasks0 : List.filter (fun t => t.downloadId == r0.id) db.tasks = [] := by
    rw [hr0]
    exact hfiltertasks
  have hinsfilter : (insertTasks s.id s.tasks db.nextTaskId).1.filter
      (fun t => t.downloadId == r0.id) = (insertTasks s.id s.tasks db.nextTaskId).1 := by
    rw [List.filter_eq_self]
    intro t ht
    rw [hr0]
    simp [insertTasks_downloadId s.id s.tasks db.nextTaskId t ht]
  rw [List.filter_append, hfilterdl, List.nil_append, hsingle, hpick, hkill]
  split
  · rename_i heq
    exact absurd heq (Option.some_ne_none r0)
  · rename_i row heq
    obtain rfl : r0 = row := Option.some.inj heq
    rw [List.filter_append, hfiltertasks0, List.nil_append, hinsfilter, insertTasks_map_back]
    rw [hr0]
    simp only [Option.some.injEq, DownloadState.mk.injEq]
    refine ⟨trivial, trivial, trivial, trivial, trivial, trivial, trivial, trivial, trivial,
      Int.ediv_mul_cancel helapsed, hmirrors, trivial, trivial, trivial⟩

/-- Witness for `save_load_roundtrip`: a concrete state (elapsed 2 ms, no
mirrors, one residual task) saved into an empty store and loaded back. -/
theorem save_load_roundtrip_witness :
    LoadState "http://e/f" "/d/out"
      (SaveState (fun u => u) "fresh" 42 "http://e/f" "/d/out"
        ⟨"id1", "http://e/f", "/d/out", "f.bin", 100, 10, "h", 5, 0, 2000000,
         [], [1, 2], 65536, [⟨10, 90⟩]⟩
        ⟨[], [], 1⟩).2 =
      some ⟨"id1", "http://e/f", "/d/out", "f.bin", 100, 10, "http://e/f", 5, 42, 2000000,
            [], [1, 2], 65536, [⟨10, 90⟩]⟩ :=
  save_load_roundtrip (fun u => u) "fresh" 42 "http://e/f" "/d/out"
    ⟨"id1", "http://e/f", "/d/out", "f.bin", 100, 10, "h", 5, 0, 2000000,
     [], [1, 2], 65536, [⟨10, 90⟩]⟩
    ⟨[], [], 1⟩
    (by decide) (by decide) rfl rfl ⟨2, by norm_num⟩ rfl
    (by simp) (by simp) (by simp)

/-- Counterexample to C6 as stated: the claim promises the elapsed time back
unchanged, but `SaveState` stores `Elapsed/1e6` (milliseconds) and `LoadState`
returns `time_taken * 1e6`, so a state with `Elapsed = 1` ns comes back with
elapsed 0. -/
theorem save_load_elapsed_counterexample :
    (LoadState "http://e/f" "/d/out"
      (SaveState (fun u => u) "fresh" 42 "http://e/f" "/d/out"
        ⟨"id1", "http://e/f", "/d/out", "f.bin", 100, 10, "h", 5, 0, 1,
         [], [], 65536, [⟨10, 90⟩]⟩
        ⟨[], [], 1⟩).2).map DownloadState.elapsed = some 0 ∧
    (0 : Int) ≠ 1 := by
  exact ⟨rfl, by decide⟩

/-! ### Go string primitives

`strings.HasPrefix`, `strings.Contains` and `strings.TrimPrefix` from the Go
standard library, modelled over `String.data` (for the ASCII needles the
daemon uses, byte-wise and character-wise matching coincide).  They are
written as structural recursions so that concrete instances evaluate. -/

/-- Character-list matching at the head: `strPre needle hay` holds when `hay`
begins with `needle`. -/
def strPre : List Char → List Char → Bool
  | [], _ => true
  | _ :: _, [] => false
  | p :: ps, c :: cs => p == c && strPre ps cs

/-- `strings.HasPrefix(s, pre)`. -/
def goStartsWith (s pre : String) : Bool := strPre pre.data s.data

/-- Matching at any position of the haystack. -/
def strHasAt (sub : List Char) : List Char → Bool
  | [] => strPre sub []
  | c :: cs => strPre sub (c :: cs) || strHasAt sub cs

/-- `strings.Contains(s, sub)`. -/
def strContains (s sub : String) : Bool := strHasAt sub.data s.data

/-- `strings.TrimPrefix(s, pre)`: drops `pre` when present, otherwise returns
`s` unchanged. -/
def strDropPre (s pre : String) : String :=
  if goStartsWith s pre then ⟨s.data.drop pre.data.length⟩ else s

/-- `subtle.ConstantTimeCompare(x, y)`: 0 for different lengths, otherwise 1
exactly when the contents agree. -/
def constantTimeCompare (x y : String) : Nat :=
  if x.data.length ≠ y.data.length then 0
  else if x = y then 1 else 0

theorem strPre_iff : ∀ p s : List Char, strPre p s = true ↔ ∃ t, s = p ++ t := by
  intro p
  induction p with
  | nil =>
    intro s
    simp [strPre]
  | cons a ps ih =>
    intro s
    cases s with
    | nil => simp [strPre]
    | cons c cs =>
      simp only [strPre, Bool.and_eq_true, beq_iff_eq, ih, List.cons_append, List.cons.injEq]
      constructor
      · rintro ⟨rfl, t, rfl⟩
        exact ⟨t, rfl, rfl⟩
      · rintro ⟨t, rfl, rfl⟩
        exact ⟨rfl, t, rfl⟩

/-! ### CORS (`checkOrigin` / `corsMiddleware`, http_handlers.go lines 257-297) -/

/-- `checkOrigin` (http_handlers.go lines 279-297): allow the three browser
extension schemes by prefix and plain-http localhost / 127.0.0.1 by equality
or `host:`-prefix; everything else (including the empty origin) is rejected. -/
def checkOrigin (origin : String) : Bool :=
  if origin = "" then false
  else if goStartsWith origin "chrome-extension://" ||
      goStartsWith origin "moz-extension://" ||
      goStartsWith origin "safari-web-extension://" then true
  else if origin = "http://localhost" || goStartsWith origin "http://localhost:" then true
  else if origin = "http://127.0.0.1" || goStartsWith origin "http://127.0.0.1:" then true
  else false

/-- The `Access-Control-Allow-Origin` header `corsMiddleware` sets
(http_handlers.go lines 260-263): the echoed origin when `checkOrigin` passes,
nothing otherwise. -/
def corsAllowOriginHeader (origin : String) : Option String :=
  if checkOrigin origin then some origin else none

/-- C8: `checkOrigin` returns true exactly for the extension-scheme prefixes
and for exact/`:`-suffixed localhost and 127.0.0.1 origins; `corsMiddleware`
echoes allowed origins in `Access-Control-Allow-Origin` and sets no such
header otherwise — in particular `http://localhost.evil.com` and
`http://localhost-evil.com` get no header while `http://localhost:3000` is
echoed. -/
theorem checkOrigin_exact_allowlist :
    (∀ origin : String, checkOrigin origin = true ↔
      (goStartsWith origin "chrome-extension://" = true ∨
       goStartsWith origin "moz-extension://" = true ∨
       goStartsWith origin "safari-web-extension://" = true ∨
       origin = "http://localhost" ∨
       goStartsWith origin "http://localhost:" = true ∨
       origin = "http://127.0.0.1" ∨
       goStartsWith origin "http://127.0.0.1:" = true)) ∧
    (∀ origin, checkOrigin origin = false → corsAllowOriginHeader origin = none) ∧
    (∀ origin, checkOrigin origin = true → corsAllowOriginHeader origin = some origin) ∧
    corsAllowOriginHeader "http://localhost.evil.com" = none ∧
    corsAllowOriginHeader "http://localhost-evil.com" = none ∧
    corsAllowOriginHeader "http://localhost:3000" = some "http://localhost:3000" := by
  have hiff : ∀ origin : String, checkOrigin origin = true ↔
      (goStartsWith origin "chrome-extension://" = true ∨
       goStartsWith origin "moz-extension://" = true ∨
       goStartsWith origin "safari-web-extension://" = true ∨
       origin = "http://localhost" ∨
       goStartsWith origin "http://localhost:" = true ∨
       origin = "http://127.0.0.1" ∨
       goStartsWith origin "http://127.0.0.1:" = true) := by
    intro origin
    by_cases h0 : origin = ""
    · subst h0
      constructor
      · intro h
        simp [checkOrigin] at h
      · intro h
        rcases h with h | h | h | h | h | h | h <;> (exfalso; revert h; decide)
    · simp only [checkOrigin, if_neg h0]
      split_ifs with h1 h2 h3
      · simp only [Bool.or_eq_true] at h1
        simp only [true_iff]
        tauto
      · simp only [Bool.or_eq_true, decide_eq_true_eq] at h2
        simp only [true_iff]
        tauto
      · simp only [Bool.or_eq_true, decide_eq_true_eq] at h3
        simp only [true_iff]
        tauto
      · simp only [Bool.or_eq_true, decide_eq_true_eq] at h1 h2 h3
        push_neg at h1 h2 h3
        simp only [false_iff]
        intro hcon
        rcases hcon with h | h | h | h | h | h | h <;> tauto
  refine ⟨hiff, ?_, ?_, ?_, ?_, ?_⟩
  · intro origin h
    simp [corsAllowOriginHeader, h]
  · intro origin h
    simp [corsAllowOriginHeader, h]
  · have : checkOrigin "http://localhost.evil.com" = false := by rfl
    simp [corsAllowOriginHeader, this]
  · have : checkOrigin "http://localhost-evil.com" = false := by rfl
    simp [corsAllowOriginHeader, this]
  · have : checkOrigin "http://localhost:3000" = true := by rfl
    simp [corsAllowOriginHeader, this]

/-! ### Bearer-token authentication (`authMiddleware`, http_handlers.go lines 299-321) -/

/-- Whether `authMiddleware` forwards the request to the wrapped handler or
answers `401 Unauthorized` itself. -/
inductive AuthDecision where
  | forward
  | unauthorized
deriving Repr, DecidableEq

/-- `authMiddleware` (http_handlers.go lines 299-321): `OPTIONS` passes (CORS
preflight); otherwise the `Authorization` header must be non-empty, carry the
`Bearer ` scheme, and the remainder must have the configured token's length
and compare equal under `subtle.ConstantTimeCompare`. -/
def authMiddleware (token method authHeader : String) : AuthDecision :=
  if method = "OPTIONS" then .forward
  else if authHeader ≠ "" then
    if goStartsWith authHeader "Bearer " then
      let providedToken := strDropPre authHeader "Bearer "
      if providedToken.data.length = token.data.length ∧
          constantTimeCompare providedToken token = 1 then .forward
      else .unauthorized
    else .unauthorized
  else .unauthorized

theorem constantTimeCompare_eq_one (x y : String) :
    (x.data.length = y.data.length ∧ constantTimeCompare x y = 1) ↔ x = y := by
  constructor
  · rintro ⟨hlen, hcmp⟩
    simp only [constantTimeCompare, if_neg (by omega : ¬x.data.length ≠ y.data.length)] at hcmp
    by_cases h : x = y
    · exact h
    · rw [if_neg h] at hcmp
      omega
  · rintro rfl
    simp [constantTimeCompare]

/-- C10: `authMiddleware` forwards exactly the `OPTIONS` requests and the
requests whose `Authorization` header is literally `Bearer ` followed by the
configured token (same length, contents equal under the constant-time
compare); every other request is answered `401` without reaching the wrapped
handler. -/
theorem authMiddleware_forward_iff (token method authHeader : String) :
    (authMiddleware token method authHeader = .forward ↔
      (method = "OPTIONS" ∨ authHeader = "Bearer " ++ token)) ∧
    (authMiddleware token method authHeader = .unauthorized ↔
      ¬(method = "OPTIONS" ∨ authHeader = "Bearer " ++ token)) := by
  have hmain : authMiddleware token method authHeader = .forward ↔
      (method = "OPTIONS" ∨ authHeader = "Bearer " ++ token) := by
    constructor
    · intro h
      by_cases hm : method = "OPTIONS"
      · exact Or.inl hm
      · refine Or.inr ?_
        simp only [authMiddleware, if_neg hm] at h
        by_cases he : authHeader ≠ ""
        · rw [if_pos he] at h
          by_cases hsw : goStartsWith authHeader "Bearer "
          · rw [if_pos hsw] at h
            split_ifs at h with hcmp
            · have hptok : strDropPre authHeader "Bearer " = token :=
                (constantTimeCompare_eq_one _ _).mp hcmp
              obtain ⟨t, ht⟩ := (strPre_iff _ _).mp hsw
              have hdrop : strDropPre authHeader "Bearer " = ⟨t⟩ := by
                simp only [strDropPre, if_pos hsw, ht]
                rw [List.drop_left]
              rw [hdrop] at hptok
              subst hptok
              cases authHeader with
              | mk dataA =>
                simp only [String.data] at ht
                subst ht
                rfl
          · rw [if_neg hsw] at h
            cases h
        · rw [if_neg he] at h
          cases h
    · intro h
      rcases h with hm | hh
      · simp [authMiddleware, hm]
      · subst hh
        by_cases hm : method = "OPTIONS"
        · simp [authMiddleware, hm]
        · have hsw : goStartsWith ("Bearer " ++ token) "Bearer " = true := by
            apply (strPre_iff _ _).mpr
            exact ⟨token.data, by simp⟩
          have hne : ("Bearer " ++ token) ≠ "" := by
            intro hcon
            have := congrArg String.data hcon
            simp at this
          have hdrop : strDropPre ("Bearer " ++ token) "Bearer " = token := by
            simp only [strDropPre, if_pos hsw]
            have hdata : ("Bearer " ++ token).data = "Bearer ".data ++ token.data := by
              simp
            rw [hdata, List.drop_left]
          have hcc : constantTimeCompare token token = 1 := by
            simp [constantTimeCompare]
          simp only [authMiddleware, if_neg hm, if_pos hne, if_pos hsw, hdrop]
          simp [hcc]
  refine ⟨hmain, ?_⟩
  constructor
  · intro h
    intro hcon
    rw [hmain.mpr hcon] at h
    cases h
  · intro h
    cases hdec : authMiddleware token method authHeader with
    | forward => exact absurd (hmain.mp hdec) h
    | unauthorized => rfl

/-- Witness for `authMiddleware_forward_iff`: the exact bearer header is
forwarded, a token embedded in a larger header is not, and `OPTIONS` always
passes. -/
theorem authMiddleware_forward_iff_witness :
    (authMiddleware "sec" "POST" "Bearer sec" = .forward ↔
      ("POST" = "OPTIONS" ∨ "Bearer sec" = "Bearer " ++ "sec")) ∧
    (authMiddleware "sec" "POST" "Bearer sec" = .unauthorized ↔
      ¬("POST" = "OPTIONS" ∨ "Bearer sec" = "Bearer " ++ "sec")) :=
  authMiddleware_forward_iff "sec" "POST" "Bearer sec"

/-! ### `POST /download` path validation (`handleDownload`, http_handlers.go lines 338-446)

Only the outcome of the early request-validation sequence matters for path
traversal; everything after it (path resolution, the base-directory
containment check, directory creation, duplicate handling, and `service.Add`)
is abstracted as the continuation `rest`. -/

/-- The body fields of a `POST /download` request the validation reads. -/
structure DLRequest where
  url : String
  filename : String
  path : String
  relativeToDefaultDir : Bool
deriving Repr, DecidableEq

/-- Observable outcome of `handleDownload` for a POST: the HTTP status
written, whether a download entry was added to the pool, and whether a
directory was created. -/
structure HandlerOutcome where
  status : Nat
  entryAdded : Bool
  dirCreated : Bool
deriving Repr, DecidableEq

/-- The POST path of `handleDownload` (http_handlers.go lines 389-401): reject
an empty URL with 400, any `..` in `path` or `filename` with 400
(`Invalid path`), any `/` or `\` in `filename` with 400 (`Invalid filename`);
only then continue with path resolution and the rest of the handler. -/
def handleDownloadPost (rest : DLRequest → HandlerOutcome) (req : DLRequest) :
    HandlerOutcome :=
  if req.url = "" then ⟨400, false, false⟩
  else if strContains req.path ".." || strContains req.filename ".." then ⟨400, false, false⟩
  else if strContains req.filename "/" || strContains req.filename "\\" then ⟨400, false, false⟩
  else rest req

/-- C7 (amended): a `POST /download` whose path contains `..` is rejected with
HTTP 400 (Bad Request, `Invalid path`) — not 403 — before any download entry
is added or any directory created, whatever the remainder of the handler would
do. -/
theorem handleDownload_dotdot_rejected (rest : DLRequest → HandlerOutcome)
    (req : DLRequest) (hdot : strContains req.path ".." = true) :
    handleDownloadPost rest req = ⟨400, false, false⟩ := by
  simp only [handleDownloadPost, hdot, Bool.true_or, if_true]
  split_ifs <;> rfl

/-- Witness for `handleDownload_dotdot_rejected`: the literal E7 request
`{path: "../etc"}` with a non-empty URL. -/
theorem handleDownload_dotdot_rejected_witness :
    handleDownloadPost (fun _ => ⟨200, true, true⟩)
      ⟨"http://example.com/f", "", "../etc", false⟩ = ⟨400, false, false⟩ :=
  handleDownload_dotdot_rejected (fun _ => ⟨200, true, true⟩)
    ⟨"http://example.com/f", "", "../etc", false⟩ rfl

/-- Counterexample to C7 as stated: the claim requires status 403 for
`{path: "../etc"}`, but the handler answers 400 (no entry added, no directory
created). -/
theorem handleDownload_dotdot_counterexample :
    handleDownloadPost (fun _ => ⟨200, true, true⟩)
      ⟨"http://example.com/f", "", "../etc", false⟩ = ⟨400, false, false⟩ ∧
    (handleDownloadPost (fun _ => ⟨200, true, true⟩)
      ⟨"http://example.com/f", "", "../etc", false⟩).status ≠ 403 := by
  constructor
  · rfl
  · decide

/-! ### Log sanitization (`SanitizeURL`, internal/utils, part_006)

`net/url.Parse` and `URL.String` are Go standard-library calls; the embedding
works on the parsed `url.URL` value they mediate.  `SanitizeURL` returns the
input string unchanged when parsing fails, so the interesting case — quantified
over every parsed URL — is the one modelled here. -/

/-- The fields of Go's `url.URL` that `SanitizeURL` reads or writes:
`User == nil` is `none`, `url.User(name)` is `some name`. -/
structure URL where
  scheme : String
  user : Option String
  host : String
  path : String
  rawQuery : String
  fragment : String
deriving Repr, DecidableEq

/-- `SanitizeURL` (internal/utils): when userinfo is present replace it with
`url.User("REDACTED")`; when the raw query is non-empty replace it with
`REDACTED`; leave every other component alone. -/
def SanitizeURL (u : URL) : URL :=
  { u with
    user := u.user.map (fun _ => "REDACTED")
    rawQuery := if u.rawQuery ≠ "" then "REDACTED" else u.rawQuery }

/-- C9: for every URL that parses, `SanitizeURL` replaces present userinfo by
`REDACTED` and a non-empty query by `REDACTED`, keeping scheme, host and path
(and absent userinfo / empty query) unchanged — so neither the original
credentials nor the original query survive into the returned URL's userinfo or
query components. -/
theorem sanitizeURL_redacts (u : URL) :
    (SanitizeURL u).scheme = u.scheme ∧
    (SanitizeURL u).host = u.host ∧
    (SanitizeURL u).path = u.path ∧
    (SanitizeURL u).fragment = u.fragment ∧
    (u.user = none → (SanitizeURL u).user = none) ∧
    (∀ credentials, u.user = some credentials → (SanitizeURL u).user = some "REDACTED") ∧
    (u.rawQuery ≠ "" → (SanitizeURL u).rawQuery = "REDACTED") ∧
    (u.rawQuery = "" → (SanitizeURL u).rawQuery = "") := by
  refine ⟨rfl, rfl, rfl, rfl, ?_, ?_, ?_, ?_⟩
  · intro h
    simp [SanitizeURL, h]
  · intro credentials h
    simp [SanitizeURL, h]
  · intro h
    simp [SanitizeURL, h]
  · intro h
    simp [SanitizeURL, h]

/-- Witness for `sanitizeURL_redacts`: a URL with credentials and a query gets
both replaced. -/
theorem sanitizeURL_redacts_witness :
    (SanitizeURL ⟨"https", some "alice:hunter2", "example.com", "/file", "k=v", ""⟩).user =
      some "REDACTED" ∧
    (SanitizeURL ⟨"https", some "alice:hunter2", "example.com", "/file", "k=v", ""⟩).rawQuery =
      "REDACTED" :=
  ⟨(sanitizeURL_redacts ⟨"https", some "alice:hunter2", "example.com", "/file", "k=v", ""⟩).2.2.2.2.2.1
      "alice:hunter2" rfl,
   (sanitizeURL_redacts ⟨"https", some "alice:hunter2", "example.com", "/file", "k=v", ""⟩).2.2.2.2.2.2.1
      (by decide)⟩

/-- Witness for `checkOrigin_exact_allowlist`: the allowed origin
`http://localhost:3000` is echoed back. -/
theorem checkOrigin_exact_allowlist_witness :
    corsAllowOriginHeader "http://localhost:3000" = some "http://localhost:3000" :=
  checkOrigin_exact_allowlist.2.2.1 "http://localhost:3000" rfl

end Surge
